import Mathlib

/-!
Verification of the OpenCivil structural assembly engine.

This file gives a shallow embedding, over the rationals, of the two core
modules of the repository:

* src/core/solver/linear_static/assembler.py  (class GlobalAssembler)
* src/core/solver/modal/mass_assembler.py     (class GlobalMassAssembler)

External collaborators (the Element Model functions
get_local_stiffness_matrix / get_rotation_matrix / get_eccentricity_matrix
imported from element_library, the numpy linear solver, and the Data Model
accessor build_load_vector) are modelled as explicit function parameters.
Floating point numbers are modelled as rationals; the one routine that
genuinely computes a square root (_apply_projection_factor) is embedded
separately over the reals.

Structure: all definitions first (translated from the Python source),
then the theorems that settle the frozen claims, with their witnesses and
counterexamples.
-/

namespace OpenCivil

open Matrix

abbrev Vec3 := Fin 3 → ℚ
abbrev V6 := Fin 6 → ℚ
abbrev V12 := Fin 12 → ℚ
abbrev M3 := Matrix (Fin 3) (Fin 3) ℚ
abbrev M6 := Matrix (Fin 6) (Fin 6) ℚ
abbrev M12 := Matrix (Fin 12) (Fin 12) ℚ

/-- Global accumulator for the stiffness / mass matrices: entry function over
flat DOF indices (row, column), mirroring the lil_matrix accumulators. -/
abbrev GMat := ℕ → ℕ → ℚ

/-- Global accumulator for the load / force vectors over flat DOF indices. -/
abbrev GVec := ℕ → ℚ

/-- Top-left 6x6 block of a 12x12 matrix, k[0:6, 0:6]. -/
def blkTL (k : M12) : M6 := Matrix.of fun a b => k ⟨a, by omega⟩ ⟨b, by omega⟩

/-- Top-right 6x6 block of a 12x12 matrix, k[0:6, 6:12]. -/
def blkTR (k : M12) : M6 :=
  Matrix.of fun a b => k ⟨a, by omega⟩ ⟨(b : ℕ) + 6, by omega⟩

/-- Bottom-left 6x6 block of a 12x12 matrix, k[6:12, 0:6]. -/
def blkBL (k : M12) : M6 :=
  Matrix.of fun a b => k ⟨(a : ℕ) + 6, by omega⟩ ⟨b, by omega⟩

/-- Bottom-right 6x6 block of a 12x12 matrix, k[6:12, 6:12]. -/
def blkBR (k : M12) : M6 :=
  Matrix.of fun a b => k ⟨(a : ℕ) + 6, by omega⟩ ⟨(b : ℕ) + 6, by omega⟩

/-- Concatenation of two 6-vectors into a 12-vector. -/
def concat66 (x y : V6) : V12 := fun i =>
  if h : (i : ℕ) < 6 then x ⟨i, h⟩ else y ⟨(i : ℕ) - 6, by omega⟩

/-- First six entries of a 12-vector, f[0:6]. -/
def first6 (f : V12) : V6 := fun i => f ⟨i, by omega⟩

/-- Last six entries of a 12-vector, f[6:12]. -/
def last6 (f : V12) : V6 := fun i => f ⟨(i : ℕ) + 6, by omega⟩

/-- The 12x12 block-diagonal matrix with four copies of a 3x3 rotation on the
diagonal (T_rot built by the loop over range(4)). -/
def blockDiag4 (R : M3) : M12 := Matrix.of fun r c =>
  if h : (r : ℕ) / 3 = (c : ℕ) / 3 then
    R ⟨(r : ℕ) % 3, by omega⟩ ⟨(c : ℕ) % 3, by omega⟩
  else 0

/-- Cross product of two 3-vectors (np.cross). -/
def cross3 (a b : Vec3) : Vec3 := fun i =>
  match (i : ℕ) with
  | 0 => a 1 * b 2 - a 2 * b 1
  | 1 => a 2 * b 0 - a 0 * b 2
  | _ => a 0 * b 1 - a 1 * b 0

/-- Add a scalar to the x-component of a local offset vector
(local_off[0] += value). -/
def bumpX (v : Vec3) (d : ℚ) : Vec3 := fun i => if (i : ℕ) = 0 then v i + d else v i

/-- Substring test on strings (the Python `sub in s` operator). -/
def strContains (s pat : String) : Bool := (s.splitOn pat).length != 1

/-- Python dict built from an association list, then looked up: later pairs
overwrite earlier ones, absent key gives none. Used for the
pattern -> scale mappings. -/
def lookupScale (l : List (String × ℚ)) (p : String) : Option ℚ :=
  l.foldl (fun acc pr => if pr.1 == p then some pr.2 else acc) none

/-- Model of np.linalg.inv over the rationals: the exact inverse when the
matrix is invertible, none (the LinAlgError path) when singular. -/
def matInvQ {n : ℕ} (A : Matrix (Fin n) (Fin n) ℚ) :
    Option (Matrix (Fin n) (Fin n) ℚ) :=
  if A.det = 0 then none else some ((A.det)⁻¹ • A.adjugate)

/-- Material record of the Data Model: E, G, rho. -/
structure Material where
  E : ℚ
  G : ℚ
  rho : ℚ
deriving DecidableEq

/-- Section record of the Data Model: A, J, I22, I33, As2, As3. -/
structure Sect where
  A : ℚ
  J : ℚ
  I22 : ℚ
  I33 : ℚ
  As2 : ℚ
  As3 : ℚ
deriving DecidableEq

/-- Element record of the Data Model (schema of spec section 3). -/
structure Element where
  id : ℕ
  ni : ℕ
  nj : ℕ
  material : Material
  sect : Sect
  L_clear : ℚ
  L_total : ℚ
  off_i : Vec3
  off_j : Vec3
  end_off_i : ℚ
  end_off_j : ℚ
  rel_i : Fin 6 → Bool
  rel_j : Fin 6 → Bool
  beta : ℚ
deriving DecidableEq

/-- Load record of the Data Model; fields cover the three load types, with
the source's .get defaults materialised as plain fields. -/
structure Load where
  pattern : String
  type : String
  element_id : ℕ
  node_id : ℕ
  wx : ℚ
  wy : ℚ
  wz : ℚ
  coord : String
  projected : Bool
  force : ℚ
  dir : String
  dist : ℚ
  is_rel : Bool
  fx : ℚ
  fy : ℚ
  fz : ℚ
deriving DecidableEq

/-- Mass-source record: name, self-mass flag, pattern flag, pattern list. -/
structure MassSource where
  name : String
  include_self_mass : Bool
  include_patterns : Bool
  load_patterns : List (String × ℚ)
deriving DecidableEq

/-- The immutable Data Model snapshot consumed by both assemblers. -/
structure Model where
  numNodes : ℕ
  nodes : ℕ → Vec3
  elements : List Element
  loads : List Load
  massSources : List MassSource
  casePatterns : List (String × ℚ)
  nodeIdToIdx : ℕ → ℕ

/-- Number of global DOFs: 6 per node. -/
def Model.totalDofs (m : Model) : ℕ := 6 * m.numNodes

/-- The concatenated 12-entry release vector
rel_vec = releases[0] + releases[1]. -/
def relVec12 (ri rj : Fin 6 → Bool) : Fin 12 → Bool := fun i =>
  if h : (i : ℕ) < 6 then ri ⟨i, h⟩ else rj ⟨(i : ℕ) - 6, by omega⟩

/-- The release check of the assembler:
any(el.releases[0]) or any(el.releases[1]). -/
def anyReleases (el : Element) : Bool :=
  (List.finRange 6).any el.rel_i || (List.finRange 6).any el.rel_j

/-- Kept (non-released) local DOF indices, in order. -/
def keptIdx (rl : Fin 12 → Bool) : List (Fin 12) :=
  (List.finRange 12).filter (fun i => !(rl i))

/-- Released local DOF indices, in order. -/
def relIdx (rl : Fin 12 → Bool) : List (Fin 12) :=
  (List.finRange 12).filter (fun i => rl i)

/-- Square submatrix of a 12x12 selected by a list of indices (np.ix_). -/
def subSq (k : M12) (l : List (Fin 12)) :
    Matrix (Fin l.length) (Fin l.length) ℚ :=
  Matrix.of fun a b => k (l.get a) (l.get b)

/-- Rectangular submatrix of a 12x12 selected by two index lists (np.ix_). -/
def subRect (k : M12) (lr lc : List (Fin 12)) :
    Matrix (Fin lr.length) (Fin lc.length) ℚ :=
  Matrix.of fun a b => k (lr.get a) (lc.get b)

/-- The entrywise maximum absolute value of a 12x12 matrix,
np.max(np.abs(k)). -/
def maxAbs (k : M12) : ℚ :=
  ((List.finRange 12).map
    (fun i => ((List.finRange 12).map (fun j => |k i j|)).foldl max 0)).foldl max 0

/-- The rotational local DOF indices that receive the stabilising penalty. -/
def rotDofs : List ℕ := [3, 4, 5, 9, 10, 11]

/-- Static condensation of a 12x12 local stiffness matrix
(GlobalAssembler._condense_matrix): Schur complement over the released
DOFs, scattered back at the kept indices, plus a small diagonal penalty on
released rotational DOFs; identity when nothing is released, fallback to
the input on a singular released block. -/
def condense_matrix (k : M12) (ri rj : Fin 6 → Bool) : M12 :=
  let rl := relVec12 ri rj
  let idxK := keptIdx rl
  let idxC := relIdx rl
  if idxC.isEmpty then k
  else
    match matInvQ (subSq k idxC) with
    | none => k
    | some KccInv =>
      let Krr := subSq k idxK
      let Krc := subRect k idxK idxC
      let Kcr := subRect k idxC idxK
      let Knew := Krr - Krc * KccInv * Kcr
      let kscat : M12 := Matrix.of fun i j =>
        if hi : idxK.indexOf i < idxK.length then
          if hj : idxK.indexOf j < idxK.length then
            Knew ⟨idxK.indexOf i, hi⟩ ⟨idxK.indexOf j, hj⟩
          else 0
        else 0
      let penalty := maxAbs k * (1 / 100000000)
      Matrix.of fun i j =>
        kscat i j + (if i = j ∧ rl i = true ∧ (i : ℕ) ∈ rotDofs then penalty else 0)

/-- FEF condensation for releases (GlobalAssembler._condense_fef):
transfer the released entries into the kept DOFs through the stiffness
coupling, zero the released entries; identity when nothing is released,
fallback to the input on a singular released block. -/
def condense_fef (k : M12) (fef : V12) (ri rj : Fin 6 → Bool) : V12 :=
  let rl := relVec12 ri rj
  let idxC := relIdx rl
  let idxK := keptIdx rl
  if idxC.isEmpty then fef
  else
    match matInvQ (subSq k idxC) with
    | none => fef
    | some KccInv =>
      let Kkc := subRect k idxK idxC
      let Fc : Fin idxC.length → ℚ := fun a => fef (idxC.get a)
      let Fk : Fin idxK.length → ℚ := fun a => fef (idxK.get a)
      let correction := Kkc.mulVec (KccInv.mulVec Fc)
      fun i =>
        if hi : idxK.indexOf i < idxK.length then
          Fk ⟨idxK.indexOf i, hi⟩ - correction ⟨idxK.indexOf i, hi⟩
        else 0

/-- Element-Model stiffness call arguments
(E, G, A, J, I22, I33, As2, As3, L, L_tor). -/
structure StiffParams where
  E : ℚ
  G : ℚ
  A : ℚ
  J : ℚ
  I22 : ℚ
  I33 : ℚ
  As2 : ℚ
  As3 : ℚ
  L : ℚ
  Ltor : ℚ
deriving DecidableEq

/-- Arguments of the get_local_stiffness_matrix call made in
_build_stiffness and for k_raw in _add_member_loads:
L = clear length, L_tor = total length. -/
def stiffParamsOf (el : Element) : StiffParams :=
  ⟨el.material.E, el.material.G, el.sect.A, el.sect.J, el.sect.I22,
   el.sect.I33, el.sect.As2, el.sect.As3, el.L_clear, el.L_total⟩

/-- Arguments of the sub-element stiffness calls in
_get_exact_fef_via_stiffness: both L and L_tor equal the sub-length. -/
def subParams (mat : Material) (sec : Sect) (l : ℚ) : StiffParams :=
  ⟨mat.E, mat.G, sec.A, sec.J, sec.I22, sec.I33, sec.As2, sec.As3, l, l⟩

/-- The 6x6 mid stiffness K_mid = k_left[6:12,6:12] + k_right[0:6,0:6] of
the two-segment exact FEF method, for sub-lengths a and L - a. -/
def midStiffness (kfun : StiffParams → M12) (mat : Material) (sec : Sect)
    (L a : ℚ) : M6 :=
  blkBR (kfun (subParams mat sec a)) + blkTL (kfun (subParams mat sec (L - a)))

/-- The mid force vector F_mid: the applied local force in the three
translational components, zero in the rotational ones. -/
def midForce (P : Vec3) : V6 := fun i =>
  if h : (i : ℕ) < 3 then P ⟨i, h⟩ else 0

/-- GlobalAssembler._get_exact_fef_via_stiffness: exact fixed-end forces of
a point load at distance a from the near end, via the two-sub-element
solve. The external numpy solver is the solve parameter (none models the
LinAlgError path); zero length or a failed solve yields the zero
12-vector. -/
def getExactFEF (kfun : StiffParams → M12) (solve : M6 → V6 → Option V6)
    (mat : Material) (sec : Sect) (L a : ℚ) (P : Vec3) : V12 :=
  if L = 0 then fun _ => 0
  else
    match solve (midStiffness kfun mat sec L a) (midForce P) with
    | none => fun _ => 0
    | some u =>
      concat66 ((blkTR (kfun (subParams mat sec a))).mulVec u)
               ((blkBL (kfun (subParams mat sec (L - a)))).mulVec u)

/-- GlobalAssembler._parse_load_direction: case-insensitive match of the
direction string; GRAVITY maps to (z, -1), then X/1, Y/2, Z/3 in priority
order; none models the (None, 0.0) unknown-direction return. -/
def parseLoadDirection (dirStr : String) : Option (Fin 3 × ℚ) :=
  let d := dirStr.toUpper
  if strContains d "GRAVITY" then some (2, -1)
  else if strContains d "X" || strContains d "1" then some (0, 1)
  else if strContains d "Y" || strContains d "2" then some (1, 1)
  else if strContains d "Z" || strContains d "3" then some (2, 1)
  else none

/-- Local fixed-end-force vector of a distributed load with local intensity
(wx, wy, wz) over the clear length (lines 271-277 of the assembler):
entries 3 and 9 stay zero. -/
def distFEFlocal (w : Vec3) (L : ℚ) : V12 := fun i =>
  match (i : ℕ) with
  | 0 => -(w 0) * L / 2
  | 6 => -(w 0) * L / 2
  | 1 => -(w 1) * L / 2
  | 7 => -(w 1) * L / 2
  | 5 => -(w 1) * L ^ 2 / 12
  | 11 => (w 1) * L ^ 2 / 12
  | 2 => -(w 2) * L / 2
  | 8 => -(w 2) * L / 2
  | 4 => (w 2) * L ^ 2 / 12
  | 10 => -(w 2) * L ^ 2 / 12
  | _ => 0

/-- Adjusted end points of an element: node coordinates plus the global
insertion offsets. -/
def adjP1 (m : Model) (el : Element) : Vec3 := fun i => m.nodes el.ni i + el.off_i i

/-- Adjusted end point at the j end. -/
def adjP2 (m : Model) (el : Element) : Vec3 := fun i => m.nodes el.nj i + el.off_j i

/-- The composed transform T = T_ecc * T_rot built by _build_stiffness:
rotation from the ADJUSTED end points and the roll angle, offsets rotated
into local axes, rigid end lengths added along local x, eccentricity
transform from those local offsets. -/
def T_stiffOf (rot : Vec3 → Vec3 → ℚ → M3) (ecc : Vec3 → Vec3 → M12)
    (m : Model) (el : Element) : M12 :=
  let R := rot (adjP1 m el) (adjP2 m el) el.beta
  let Trot := blockDiag4 R
  let loI := bumpX (R.mulVec el.off_i) el.end_off_i
  let loJ := bumpX (R.mulVec el.off_j) (-el.end_off_j)
  ecc loI loJ * Trot

/-- The rotation matrix computed in _add_member_loads (line 247): from the
RAW node coordinates, not the adjusted ones. -/
def loadR (rot : Vec3 → Vec3 → ℚ → M3) (m : Model) (el : Element) : M3 :=
  rot (m.nodes el.ni) (m.nodes el.nj) el.beta

/-- The composed transform T = T_ecc * T_rot built by _add_member_loads
(lines 311-326): same offset handling as the stiffness path, but the
rotation comes from the raw node coordinates. -/
def T_loadOf (rot : Vec3 → Vec3 → ℚ → M3) (ecc : Vec3 → Vec3 → M12)
    (m : Model) (el : Element) : M12 :=
  let R := loadR rot m el
  let Trot := blockDiag4 R
  let loI := bumpX (R.mulVec el.off_i) el.end_off_i
  let loJ := bumpX (R.mulVec el.off_j) (-el.end_off_j)
  ecc loI loJ * Trot

/-- Per-element global stiffness k_global = T^T k_local T of
_build_stiffness, with condensation applied when any release flag is
set. -/
def elemKGlobal (kfun : StiffParams → M12) (rot : Vec3 → Vec3 → ℚ → M3)
    (ecc : Vec3 → Vec3 → M12) (m : Model) (el : Element) : M12 :=
  let kl := kfun (stiffParamsOf el)
  let kl2 := if anyReleases el then condense_matrix kl el.rel_i el.rel_j else kl
  let T := T_stiffOf rot ecc m el
  Tᵀ * kl2 * T

/-- One 6x6 block scatter-added at node-block position (bi, bj) of the
global matrix. -/
def placeBlk (bi bj : ℕ) (g : M6) (r c : ℕ) : ℚ :=
  if h : 6 * bi ≤ r ∧ r < 6 * bi + 6 ∧ 6 * bj ≤ c ∧ c < 6 * bj + 6 then
    g ⟨r - 6 * bi, by omega⟩ ⟨c - 6 * bj, by omega⟩
  else 0

/-- The four-block scatter-add of one element's k_global into K at the
(i,i), (i,j), (j,i), (j,j) DOF ranges. -/
def scatterK (ni nj : ℕ) (kg : M12) (r c : ℕ) : ℚ :=
  placeBlk ni ni (blkTL kg) r c + placeBlk ni nj (blkTR kg) r c +
  placeBlk nj ni (blkBL kg) r c + placeBlk nj nj (blkBR kg) r c

/-- GlobalAssembler._build_stiffness: the element loop scatter-adding each
transformed local stiffness into the K accumulator. -/
def buildStiffness (kfun : StiffParams → M12) (rot : Vec3 → Vec3 → ℚ → M3)
    (ecc : Vec3 → Vec3 → M12) (m : Model) (K0 : GMat) : GMat :=
  m.elements.foldl
    (fun K el => fun r c => K r c + scatterK el.ni el.nj (elemKGlobal kfun rot ecc m el) r c)
    K0

/-- A 6-vector contribution placed at one node's DOF block of the global
load vector. -/
def placeV (n : ℕ) (v : V6) (d : ℕ) : ℚ :=
  if h : 6 * n ≤ d ∧ d < 6 * n + 6 then v ⟨d - 6 * n, by omega⟩ else 0

/-- Raw load position of a member point load: scaled by the total length
when given as a relative position. -/
def pointDistRaw (el : Element) (load : Load) : ℚ :=
  if load.is_rel then load.dist * el.L_total else load.dist

/-- The local FEF vector of one member load (the per-type part of
_add_member_loads), together with w_vec_local_for_offset. none models the
continue on an unparseable point-load direction. The projQ parameter is
the hook for _apply_projection_factor (embedded separately over the reals,
since it takes a square root). -/
def localFefOf (kfun : StiffParams → M12) (solve : M6 → V6 → Option V6)
    (projQ : Vec3 → Vec3 → Vec3 → ℚ → String → Vec3) (R : M3) (m : Model)
    (el : Element) (load : Load) (scale : ℚ) : Option (V12 × Vec3) :=
  if load.type = "member_dist" then
    let wdef : Vec3 := fun i =>
      (if (i : ℕ) = 0 then load.wx else if (i : ℕ) = 1 then load.wy else load.wz) * scale
    let wloc0 := if load.coord = "Global" then R.mulVec wdef else wdef
    let wloc := if load.projected then
        projQ wloc0 (m.nodes el.ni) (m.nodes el.nj) el.L_total load.coord
      else wloc0
    some (distFEFlocal wloc el.L_clear, wloc)
  else
    let Pval := load.force * scale
    match parseLoadDirection load.dir with
    | none => none
    | some ds =>
      let vecDef : Vec3 := fun i => if i = ds.1 then 1 * ds.2 * Pval else 0
      let coordSys := if strContains load.dir.toUpper "GRAVITY" then "Global" else load.coord
      let Plocal := if coordSys = "Global" then R.mulVec vecDef else vecDef
      let distRaw := pointDistRaw el load
      if el.end_off_i ≤ distRaw ∧ distRaw ≤ el.L_total - el.end_off_j then
        some (getExactFEF kfun solve el.material el.sect el.L_clear
                (distRaw - el.end_off_i) Plocal,
              fun _ => 0)
      else some (fun _ => 0, fun _ => 0)

/-- The rigid-end correction of _add_member_loads (lines 330-357) applied
to the global FEF of a distributed load when a rigid end length is
nonzero. -/
def rigidCorrection (R : M3) (w : Vec3) (el : Element) (f : V12) : V12 :=
  let ri := el.end_off_i
  let rj := el.end_off_j
  let loI := R.mulVec el.off_i
  let loJ := R.mulVec el.off_j
  let Fi : Vec3 := fun i => w i * ri
  let ci : Vec3 := fun i => (if (i : ℕ) = 0 then ri / 2 else 0) + loI i
  let Mi := cross3 ci Fi
  let Fj : Vec3 := fun i => w i * rj
  let cj : Vec3 := fun i => (if (i : ℕ) = 0 then -(rj / 2) else 0) + loJ i
  let Mj := cross3 cj Fj
  fun d =>
    f d -
      (if 0 < ri then
        (if h : (d : ℕ) < 3 then (Rᵀ).mulVec Fi ⟨d, h⟩
         else if h2 : (d : ℕ) < 6 then (Rᵀ).mulVec Mi ⟨(d : ℕ) - 3, by omega⟩
         else 0)
      else 0) -
      (if 0 < rj then
        (if h : 6 ≤ (d : ℕ) ∧ (d : ℕ) < 9 then (Rᵀ).mulVec Fj ⟨(d : ℕ) - 6, by omega⟩
         else if h2 : 9 ≤ (d : ℕ) then (Rᵀ).mulVec Mj ⟨(d : ℕ) - 9, by omega⟩
         else 0)
      else 0)

/-- The global FEF of one member load of _add_member_loads: pattern
filtering, type filtering, element lookup, local FEF, release
condensation, transform by T_load, rigid-end correction. none models the
continue paths (inactive pattern, wrong type, dangling element reference,
unknown direction). -/
def fefGlobalOfLoad (kfun : StiffParams → M12) (rot : Vec3 → Vec3 → ℚ → M3)
    (ecc : Vec3 → Vec3 → M12) (solve : M6 → V6 → Option V6)
    (projQ : Vec3 → Vec3 → Vec3 → ℚ → String → Vec3) (m : Model)
    (load : Load) : Option (Element × V12) :=
  match lookupScale m.casePatterns load.pattern with
  | none => none
  | some scale =>
    if load.type = "member_dist" ∨ load.type = "member_point" then
      match m.elements.find? (fun e => e.id == load.element_id) with
      | none => none
      | some el =>
        match localFefOf kfun solve projQ (loadR rot m el) m el load scale with
        | none => none
        | some fw =>
          let fef1 := if anyReleases el then
              condense_fef (kfun (stiffParamsOf el)) fw.1 el.rel_i el.rel_j
            else fw.1
          let T := T_loadOf rot ecc m el
          let fefG := (Tᵀ).mulVec fef1
          let fefG2 := if load.type = "member_dist" ∧ (0 < el.end_off_i ∨ 0 < el.end_off_j)
            then rigidCorrection (loadR rot m el) fw.2 el fefG
            else fefG
          some (el, fefG2)
    else none

/-- The increment one member load makes to the P accumulator:
P[rows_i] -= fef_global[0:6], P[rows_j] -= fef_global[6:12]. -/
def loadPIncr (kfun : StiffParams → M12) (rot : Vec3 → Vec3 → ℚ → M3)
    (ecc : Vec3 → Vec3 → M12) (solve : M6 → V6 → Option V6)
    (projQ : Vec3 → Vec3 → Vec3 → ℚ → String → Vec3) (m : Model)
    (load : Load) : GVec := fun d =>
  match fefGlobalOfLoad kfun rot ecc solve projQ m load with
  | none => 0
  | some elf => -(placeV elf.1.ni (first6 elf.2) d) - placeV elf.1.nj (last6 elf.2) d

/-- GlobalAssembler._add_member_loads: the load loop accumulating the
member-load contributions into the P accumulator. -/
def addMemberLoads (kfun : StiffParams → M12) (rot : Vec3 → Vec3 → ℚ → M3)
    (ecc : Vec3 → Vec3 → M12) (solve : M6 → V6 → Option V6)
    (projQ : Vec3 → Vec3 → Vec3 → ℚ → String → Vec3) (m : Model)
    (P0 : GVec) : GVec :=
  m.loads.foldl
    (fun P ld => fun d => P d + loadPIncr kfun rot ecc solve projQ m ld d)
    P0

/-- GlobalAssembler.assemble_system acting on the (K, P) accumulator state
created in __init__: build stiffness into K, add the Data Model's nodal
load vector (the external blv parameter) to P, then the member loads. -/
def assembleSystem (kfun : StiffParams → M12) (rot : Vec3 → Vec3 → ℚ → M3)
    (ecc : Vec3 → Vec3 → M12) (solve : M6 → V6 → Option V6)
    (projQ : Vec3 → Vec3 → Vec3 → ℚ → String → Vec3) (blv : GVec) (m : Model)
    (st : GMat × GVec) : GMat × GVec :=
  let K := buildStiffness kfun rot ecc m st.1
  let P1 : GVec := fun d => st.2 d + blv d
  (K, addMemberLoads kfun rot ecc solve projQ m P1)

/-- The K produced by a freshly constructed assembler (zero accumulators),
as returned by assemble_system. -/
def assembledK (kfun : StiffParams → M12) (rot : Vec3 → Vec3 → ℚ → M3)
    (ecc : Vec3 → Vec3 → M12) (solve : M6 → V6 → Option V6)
    (projQ : Vec3 → Vec3 → Vec3 → ℚ → String → Vec3) (blv : GVec)
    (m : Model) : GMat :=
  (assembleSystem kfun rot ecc solve projQ blv m (fun _ _ => 0, fun _ => 0)).1

/-- Standard gravity used by the mass assembler, g = 9.80665. -/
def gAccel : ℚ := 980665 / 100000

/-- The net-force-to-mass threshold -1e-5 of the conversion loop. -/
def massThreshold : ℚ := -(1 / 100000)

/-- GlobalMassAssembler._find_mass_source over a list-shaped registry:
first entry whose name matches, with "Default" falling back to the first
defined entry. -/
def findMassSource (m : Model) (name : String) : Option MassSource :=
  match m.massSources.find? (fun s => s.name == name) with
  | some s => some s
  | none => if name == "Default" then m.massSources.head? else none

/-- Per-element lumped self mass divided between the two end nodes:
half of A * (rho / g) * L_total. -/
def selfMassHalf (el : Element) : ℚ :=
  el.sect.A * (el.material.rho / gAccel) * el.L_total / 2

/-- Entry increment of one element's self mass: half the element mass on
each end node's three translational diagonal DOFs (both halves land on the
same node when the element loops on one node). -/
def selfMassIncr (el : Element) (r c : ℕ) : ℚ :=
  if r = c ∧ r % 6 < 3 then
    (if r / 6 = el.ni then selfMassHalf el else 0) +
    (if r / 6 = el.nj then selfMassHalf el else 0)
  else 0

/-- GlobalMassAssembler._add_element_self_mass: the element loop adding the
lumped self mass into the M accumulator. -/
def addSelfMass (m : Model) (M0 : GMat) : GMat :=
  m.elements.foldl (fun M el => fun r c => M r c + selfMassIncr el r c) M0

/-- Net nodal force increment of one load for the pattern-derived mass
path (_add_mass_from_net_loads, per-load body): nodal loads add directly,
distributed loads contribute w * L_total split evenly, point loads are
interpolated linearly between the end nodes. The rotation for local
frames is taken from the ADJUSTED end points. -/
def massLoadIncr (rot : Vec3 → Vec3 → ℚ → M3) (m : Model)
    (active : List (String × ℚ)) (load : Load) : GVec := fun d =>
  match lookupScale active load.pattern with
  | none => 0
  | some mult =>
    if load.type = "nodal" then
      let base := 6 * m.nodeIdToIdx load.node_id
      if d = base then load.fx * mult
      else if d = base + 1 then load.fy * mult
      else if d = base + 2 then load.fz * mult
      else 0
    else if load.type = "member_dist" then
      match m.elements.find? (fun e => e.id == load.element_id) with
      | none => 0
      | some el =>
        let wvec : Vec3 := fun i =>
          if (i : ℕ) = 0 then load.wx else if (i : ℕ) = 1 then load.wy else load.wz
        let wglobal := if load.coord = "Local" then
            ((rot (adjP1 m el) (adjP2 m el) el.beta)ᵀ).mulVec wvec
          else wvec
        let Ftot : Vec3 := fun i => wglobal i * el.L_total * mult
        (if h : 6 * el.ni ≤ d ∧ d < 6 * el.ni + 3 then Ftot ⟨d - 6 * el.ni, by omega⟩ / 2 else 0) +
        (if h : 6 * el.nj ≤ d ∧ d < 6 * el.nj + 3 then Ftot ⟨d - 6 * el.nj, by omega⟩ / 2 else 0)
    else if load.type = "member_point" then
      match m.elements.find? (fun e => e.id == load.element_id) with
      | none => 0
      | some el =>
        let Fg : Vec3 :=
          if load.dir = "Gravity" then
            fun i => if (i : ℕ) = 2 then -|load.force| else 0
          else if load.coord = "Global" then
            let idx : Fin 3 := if strContains load.dir "X" then 0
              else if strContains load.dir "Y" then 1 else 2
            fun i => if i = idx then load.force else 0
          else if load.coord = "Local" then
            let idx : Fin 3 := if strContains load.dir "1" then 0
              else if strContains load.dir "2" then 1 else 2
            let lv : Vec3 := fun i => if i = idx then load.force else 0
            ((rot (adjP1 m el) (adjP2 m el) el.beta)ᵀ).mulVec lv
          else fun _ => 0
        let Fs : Vec3 := fun i => Fg i * mult
        let t := if load.is_rel then load.dist else load.dist / el.L_total
        (if h : 6 * el.ni ≤ d ∧ d < 6 * el.ni + 3 then Fs ⟨d - 6 * el.ni, by omega⟩ * (1 - t) else 0) +
        (if h : 6 * el.nj ≤ d ∧ d < 6 * el.nj + 3 then Fs ⟨d - 6 * el.nj, by omega⟩ * t else 0)
    else 0

/-- The accumulated net nodal force vector F_accum of
_add_mass_from_net_loads. -/
def accumNetForce (rot : Vec3 → Vec3 → ℚ → M3) (m : Model)
    (active : List (String × ℚ)) : GVec :=
  m.loads.foldl (fun F ld => fun d => F d + massLoadIncr rot m active ld d) (fun _ => 0)

/-- Diagonal mass increment of the conversion loop
(for i in range(2, total_dofs, 6)): nodes whose net Z force is more
negative than -1e-5 get abs(Fz)/g on their three translational DOFs. -/
def netMassDiag (m : Model) (F : GVec) (d : ℕ) : ℚ :=
  if d / 6 < m.numNodes ∧ d % 6 < 3 ∧ F (6 * (d / 6) + 2) < massThreshold then
    |F (6 * (d / 6) + 2)| / gAccel
  else 0

/-- GlobalMassAssembler._add_mass_from_net_loads: accumulate net nodal
forces over the active patterns, then convert net-downward Z forces to
lumped mass; an empty pattern list returns the accumulator unchanged. -/
def addNetLoadMass (rot : Vec3 → Vec3 → ℚ → M3) (m : Model)
    (pats : List (String × ℚ)) (M1 : GMat) : GMat :=
  if pats.isEmpty then M1
  else
    let F := accumNetForce rot m pats
    fun r c => M1 r c + (if r = c then netMassDiag m F r else 0)

/-- GlobalMassAssembler.build_mass_matrix acting on the M accumulator
created in __init__: resolve the mass source (unresolvable names return
the accumulator, i.e. zero mass for a fresh assembler), then add self mass
and/or pattern-derived mass. -/
def buildMassMatrix (rot : Vec3 → Vec3 → ℚ → M3) (m : Model) (name : String)
    (M0 : GMat) : GMat :=
  match findMassSource m name with
  | none => M0
  | some ms =>
    let M1 := if ms.include_self_mass then addSelfMass m M0 else M0
    if ms.include_patterns then addNetLoadMass rot m ms.load_patterns M1 else M1

/-- Real-valued 3-vectors for the projection routine. -/
abbrev Vec3R := Fin 3 → ℝ

/-- Horizontal (XY plane) projection length between two end points,
sqrt(dx^2 + dy^2). -/
noncomputable def horizLen (p1 p2 : Vec3R) : ℝ :=
  Real.sqrt ((p2 0 - p1 0) ^ 2 + (p2 1 - p1 1) ^ 2)

/-- Full 3D distance between two end points. -/
noncomputable def dist3 (p1 p2 : Vec3R) : ℝ :=
  Real.sqrt ((p2 0 - p1 0) ^ 2 + (p2 1 - p1 1) ^ 2 + (p2 2 - p1 2) ^ 2)

/-- GlobalAssembler._apply_projection_factor: non-Global frames are a
no-op; vertical members (horizontal length below 1e-9) give the zero
vector; degenerate total length gives the input back; otherwise the
intensity is scaled by horizontal length / total length. -/
noncomputable def applyProjectionFactor (w : Vec3R) (p1 p2 : Vec3R)
    (Ltotal : ℝ) (coordSystem : String) : Vec3R :=
  if coordSystem ≠ "Global" then w
  else
    let Lh := horizLen p1 p2
    if Lh < 1e-9 then fun _ => 0
    else if Ltotal < 1e-9 then w
    else fun i => w i * (Lh / Ltotal)

/-- Zero global matrix accumulator (fresh lil_matrix). -/
def zeroGM : GMat := fun _ _ => 0

/-- Zero global vector accumulator (fresh P). -/
def zeroGV : GVec := fun _ => 0

/-- Trivial rotation stand-in used by witnesses. -/
def rot0w : Vec3 → Vec3 → ℚ → M3 := fun _ _ _ => Matrix.of fun _ _ => 0

/-- Identity eccentricity stand-in used by witnesses. -/
def ecc1w : Vec3 → Vec3 → M12 := fun _ _ => 1

/-- Always-failing solver (every system reported singular). -/
def solveNone : M6 → V6 → Option V6 := fun _ _ => none

/-- Identity projection hook used by witnesses. -/
def projQ0w : Vec3 → Vec3 → Vec3 → ℚ → String → Vec3 := fun w _ _ _ _ => w

/-- Zero nodal load vector stand-in. -/
def blv0w : GVec := fun _ => 0

/-- Element-Model stand-in returning the identity local stiffness. -/
def kfunOne : StiffParams → M12 := fun _ => 1

/-- Element-Model stand-in returning the zero local stiffness. -/
def kfunZero : StiffParams → M12 := fun _ => Matrix.of fun _ _ => 0

/-- A rotation function that depends on the end-point coordinates (as the
real direction-based rotation does): entry (0,0) records the z-drop. -/
def rot1 : Vec3 → Vec3 → ℚ → M3 := fun p q _ =>
  Matrix.of fun i j => if (i : ℕ) = 0 ∧ (j : ℕ) = 0 then q 2 - p 2 else 0

/-- Trivial material fixture. -/
def matTrivial : Material := ⟨1, 1, 1⟩

/-- Trivial section fixture. -/
def sectTrivial : Sect := ⟨1, 1, 1, 1, 1, 1⟩

/-- No-release flag vector. -/
def noRel : Fin 6 → Bool := fun _ => false

/-- Element with a unit insertion offset in global z at end i. -/
def el1 : Element :=
  ⟨1, 0, 1, matTrivial, sectTrivial, 1, 1,
   (fun i => if (i : ℕ) = 2 then 1 else 0), (fun _ => 0), 0, 0, noRel, noRel, 0⟩

/-- Two-node model carrying el1: node 0 at the origin, node 1 at (1,0,0). -/
def m1 : Model :=
  ⟨2, (fun n i => if n = 0 then 0 else if (i : ℕ) = 0 then 1 else 0),
   [el1], [], [], [], fun _ => 0⟩

/-- Plain element with no offsets and no releases. -/
def el2 : Element :=
  ⟨1, 0, 1, matTrivial, sectTrivial, 1, 1, (fun _ => 0), (fun _ => 0), 0, 0,
   noRel, noRel, 0⟩

/-- Two-node model carrying el2. -/
def m2 : Model := ⟨2, (fun _ _ => 0), [el2], [], [], [], fun _ => 0⟩

/-- Solver stand-in that checks the halved right-hand side and returns it;
sound by construction. -/
def solveHalf : M6 → V6 → Option V6 := fun A b =>
  if A.mulVec (fun i => b i / 2) = b then some (fun i => b i / 2) else none

/-- Concrete applied point force for the C3 witness. -/
def pW : Vec3 := fun _ => 4

/-- Mid displacement solving the C3 witness system. -/
def uW : V6 := fun i => midForce pW i / 2

/-- Concrete 12x12 matrix fixture. -/
def kC5 : M12 := Matrix.of fun i j => ((i : ℕ) : ℚ) + ((j : ℕ) : ℚ) * 2

/-- Concrete 12-vector fixture. -/
def fC5 : V12 := fun i => ((i : ℕ) : ℚ)

/-- Nodal load of pattern W with downward z force 1. -/
def loadW : Load :=
  ⟨"W", "nodal", 0, 0, 0, 0, 0, "Global", false, 0, "Z", 0, true, 0, 0, -1⟩

/-- One-node model carrying only loadW. -/
def m6 : Model := ⟨1, (fun _ _ => 0), [], [loadW], [], [], fun _ => 0⟩

/-- Active pattern list for the C6 witness. -/
def pats6 : List (String × ℚ) := [("W", 1)]

/-- Element of weight density rho = g, area 1, total length 2: element
mass 2, half mass 1 on each end node. -/
def el7 : Element :=
  ⟨1, 0, 1, ⟨1, 1, gAccel⟩, sectTrivial, 2, 2, (fun _ => 0), (fun _ => 0),
   0, 0, noRel, noRel, 0⟩

/-- Two-node model carrying el7. -/
def m7 : Model := ⟨2, (fun _ _ => 0), [el7], [], [], [], fun _ => 0⟩

/-- Element looping on node 0 with mass 1. -/
def el9 : Element :=
  ⟨1, 0, 0, ⟨1, 1, gAccel⟩, sectTrivial, 1, 1, (fun _ => 0), (fun _ => 0),
   0, 0, noRel, noRel, 0⟩

/-- Mass source with self mass only. -/
def ms9 : MassSource := ⟨"Default", true, false, []⟩

/-- One-node model with one self-massive element and the Default source. -/
def m9 : Model := ⟨1, (fun _ _ => 0), [el9], [], [ms9], [], fun _ => 0⟩

/-- Element with id 5 referenced by the C10 point load. -/
def el10 : Element :=
  ⟨5, 0, 1, matTrivial, sectTrivial, 1, 1, (fun _ => 0), (fun _ => 0), 0, 0,
   noRel, noRel, 0⟩

/-- Member point load at midspan of element 5, pattern D. -/
def load10 : Load :=
  ⟨"D", "member_point", 5, 0, 0, 0, 0, "Global", false, 10, "X", 1 / 2, true, 0, 0, 0⟩

/-- Two-node model carrying el10 and load10 under active pattern D. -/
def m10 : Model :=
  ⟨2, (fun _ _ => 0), [el10], [load10], [], [("D", 1)], fun _ => 0⟩

/-- Concrete real intensity vector for the projection witness. -/
def projW : Vec3R := fun i => ((i : ℕ) : ℝ) + 1

/-- Origin end point for the projection witness. -/
def projP1 : Vec3R := fun _ => 0

/-- End point (3,4,0) for the projection witness: horizontal length 5. -/
def projP2 : Vec3R := fun i =>
  if (i : ℕ) = 0 then 3 else if (i : ℕ) = 1 then 4 else 0

/-- A foldl that adds a per-item entry contribution to a two-index
accumulator equals the initial accumulator plus the summed
contributions. -/
theorem foldl_add2 {α : Type} (g : α → ℕ → ℕ → ℚ) (l : List α) (M : GMat) :
    l.foldl (fun acc x => fun r c => acc r c + g x r c) M
      = fun r c => M r c + ((l.map (fun x => g x r c)).sum) := by
  induction l generalizing M with
  | nil => funext r c; simp
  | cons a t ih =>
    simp only [List.foldl_cons, List.map_cons, List.sum_cons]
    rw [ih]
    funext r c
    ring

/-- One-index version of foldl_add2 for the vector accumulators. -/
theorem foldl_add1 {α : Type} (g : α → ℕ → ℚ) (l : List α) (P : GVec) :
    l.foldl (fun acc x => fun d => acc d + g x d) P
      = fun d => P d + ((l.map (fun x => g x d)).sum) := by
  induction l generalizing P with
  | nil => funext d; simp
  | cons a t ih =>
    simp only [List.foldl_cons, List.map_cons, List.sum_cons]
    rw [ih]
    funext d
    ring

/-- Congruence of mapped sums over a list. -/
theorem sum_map_congr {α : Type} (l : List α) (f g : α → ℚ)
    (h : ∀ a ∈ l, f a = g a) : (l.map f).sum = (l.map g).sum := by
  induction l with
  | nil => rfl
  | cons a t ih =>
    simp only [List.map_cons, List.sum_cons]
    rw [h a (by simp), ih (fun a ha => h a (by simp [ha]))]

/-- A mapped sum of vanishing terms is zero. -/
theorem sum_map_zero {α : Type} (l : List α) (f : α → ℚ)
    (h : ∀ a ∈ l, f a = 0) : (l.map f).sum = 0 := by
  induction l with
  | nil => rfl
  | cons a t ih =>
    simp only [List.map_cons, List.sum_cons]
    rw [h a (by simp), ih (fun a ha => h a (by simp [ha]))]
    ring

/-- Pulling a constant factor out of a mapped sum. -/
theorem sum_map_mul_left {α : Type} (l : List α) (f : α → ℚ) (r : ℚ) :
    (l.map (fun a => r * f a)).sum = r * (l.map f).sum := by
  induction l with
  | nil => simp
  | cons a t ih =>
    simp only [List.map_cons, List.sum_cons]
    rw [ih]
    ring

/-- Exchange of a Finset sum with a mapped list sum. -/
theorem finsetSum_listSum_swap {α β : Type} (s : Finset β) (l : List α)
    (g : α → β → ℚ) :
    (s.sum fun b => (l.map (fun a => g a b)).sum)
      = (l.map (fun a => s.sum fun b => g a b)).sum := by
  induction l with
  | nil => simp
  | cons a t ih =>
    simp only [List.map_cons, List.sum_cons]
    rw [← ih, ← Finset.sum_add_distrib]

/-- With all release flags false, the released index list is empty. -/
theorem relIdx_eq_nil (ri rj : Fin 6 → Bool) (h1 : ∀ i, ri i = false)
    (h2 : ∀ i, rj i = false) : relIdx (relVec12 ri rj) = [] := by
  rw [relIdx, List.filter_eq_nil_iff]
  intro a _
  rw [relVec12]
  split <;> simp [h1, h2]

/-- With all release flags false, the assembler's release check is
false. -/
theorem anyReleases_eq_false (el : Element) (h1 : ∀ i, el.rel_i i = false)
    (h2 : ∀ i, el.rel_j i = false) : anyReleases el = false := by
  rw [anyReleases]
  simp [List.any_eq_true, h1, h2]

/-- FEF condensation of the zero vector is the zero vector. -/
theorem condense_fef_zero (k : M12) (ri rj : Fin 6 → Bool) :
    condense_fef k (fun _ => 0) ri rj = fun _ => 0 := by
  rw [condense_fef]
  split
  · rfl
  · split
    · rfl
    · funext i
      have hz : ∀ n (A : Matrix (Fin n) (Fin n) ℚ),
          A.mulVec (fun _ => (0:ℚ)) = fun _ => 0 := by
        intro n A
        funext a
        simp [Matrix.mulVec, Matrix.dotProduct]
      simp only [hz]
      split
      · simp [Matrix.mulVec, Matrix.dotProduct]
      · rfl

/-- Placing the zero 6-vector contributes nothing. -/
theorem placeV_zero (n : ℕ) (d : ℕ) : placeV n (fun _ => 0) d = 0 := by
  rw [placeV]
  split <;> rfl

/-- Swapping the block position and transposing the block swaps the two
global indices of a placed block. -/
theorem placeBlk_swap (bi bj : ℕ) (g : M6) (r c : ℕ) :
    placeBlk bi bj g r c = placeBlk bj bi gᵀ c r := by
  rw [placeBlk, placeBlk]
  split
  · split
    · simp [Matrix.transpose_apply]
    · omega
  · split
    · omega
    · rfl

/-- The top-left block of a symmetric 12x12 matrix is symmetric. -/
theorem blkTL_symm (kg : M12) (h : kgᵀ = kg) : (blkTL kg)ᵀ = blkTL kg := by
  funext a b
  have hs := congrFun (congrFun h ⟨(a : ℕ), by omega⟩) ⟨(b : ℕ), by omega⟩
  simp only [Matrix.transpose_apply] at hs
  simp [blkTL, Matrix.transpose_apply, hs]

/-- The bottom-right block of a symmetric 12x12 matrix is symmetric. -/
theorem blkBR_symm (kg : M12) (h : kgᵀ = kg) : (blkBR kg)ᵀ = blkBR kg := by
  funext a b
  have hs := congrFun (congrFun h ⟨(a : ℕ) + 6, by omega⟩) ⟨(b : ℕ) + 6, by omega⟩
  simp only [Matrix.transpose_apply] at hs
  simp [blkBR, Matrix.transpose_apply, hs]

/-- For a symmetric 12x12 matrix the transpose of the top-right block is
the bottom-left block. -/
theorem blkTR_transpose (kg : M12) (h : kgᵀ = kg) : (blkTR kg)ᵀ = blkBL kg := by
  funext a b
  have hs := congrFun (congrFun h ⟨(a : ℕ) + 6, by omega⟩) ⟨(b : ℕ), by omega⟩
  simp only [Matrix.transpose_apply] at hs
  simp [blkTR, blkBL, Matrix.transpose_apply, hs]

/-- For a symmetric 12x12 matrix the transpose of the bottom-left block is
the top-right block. -/
theorem blkBL_transpose (kg : M12) (h : kgᵀ = kg) : (blkBL kg)ᵀ = blkTR kg := by
  rw [← blkTR_transpose kg h, Matrix.transpose_transpose]

/-- The four-block scatter of a symmetric element matrix is a symmetric
entry function. -/
theorem scatterK_symm (ni nj : ℕ) (kg : M12) (h : kgᵀ = kg) (r c : ℕ) :
    scatterK ni nj kg r c = scatterK ni nj kg c r := by
  rw [scatterK, scatterK]
  rw [placeBlk_swap ni ni (blkTL kg) c r, placeBlk_swap ni nj (blkTR kg) c r,
    placeBlk_swap nj ni (blkBL kg) c r, placeBlk_swap nj nj (blkBR kg) c r,
    blkTL_symm kg h, blkTR_transpose kg h, blkBL_transpose kg h, blkBR_symm kg h]
  ring

/-- A congruence-transformed symmetric local stiffness is symmetric. -/
theorem congrT_symm (T k : M12) (h : kᵀ = k) : (Tᵀ * k * T)ᵀ = Tᵀ * k * T := by
  rw [Matrix.transpose_mul, Matrix.transpose_mul, Matrix.transpose_transpose, h,
    Matrix.mul_assoc]

/-- The per-element global stiffness block is symmetric when the element
has no releases and the Element Model matrix is symmetric. -/
theorem elemKGlobal_symm (kfun : StiffParams → M12) (rot : Vec3 → Vec3 → ℚ → M3)
    (ecc : Vec3 → Vec3 → M12) (m : Model) (el : Element)
    (h1 : ∀ i, el.rel_i i = false) (h2 : ∀ i, el.rel_j i = false)
    (hsym : (kfun (stiffParamsOf el))ᵀ = kfun (stiffParamsOf el)) :
    (elemKGlobal kfun rot ecc m el)ᵀ = elemKGlobal kfun rot ecc m el := by
  rw [elemKGlobal]
  simp only [anyReleases_eq_false el h1 h2, Bool.false_eq_true, if_false]
  exact congrT_symm _ _ hsym

/-- C2. For every model with no release flags set, if every local
stiffness matrix supplied by the external Element Model is symmetric then
the global stiffness matrix K returned by assemble_system (from a fresh
assembler) is symmetric: each scatter-add of the four 6x6 blocks of
T^T k_local T preserves symmetry. -/
theorem c2_assembled_K_symmetric (kfun : StiffParams → M12)
    (rot : Vec3 → Vec3 → ℚ → M3) (ecc : Vec3 → Vec3 → M12)
    (solve : M6 → V6 → Option V6)
    (projQ : Vec3 → Vec3 → Vec3 → ℚ → String → Vec3) (blv : GVec) (m : Model)
    (hrel : ∀ el ∈ m.elements, (∀ i, el.rel_i i = false) ∧ (∀ i, el.rel_j i = false))
    (hsym : ∀ p, (kfun p)ᵀ = kfun p) :
    ∀ r c, assembledK kfun rot ecc solve projQ blv m r c
      = assembledK kfun rot ecc solve projQ blv m c r := by
  intro r c
  have hK : assembledK kfun rot ecc solve projQ blv m
      = fun r c => 0 + ((m.elements.map
          (fun el => scatterK el.ni el.nj (elemKGlobal kfun rot ecc m el) r c)).sum) := by
    have h0 : assembledK kfun rot ecc solve projQ blv m
        = buildStiffness kfun rot ecc m (fun _ _ => 0) := rfl
    rw [h0]
    unfold buildStiffness
    exact foldl_add2 _ _ _
  rw [hK]
  simp only
  congr 1
  exact sum_map_congr _ _ _ (fun el hel =>
    scatterK_symm el.ni el.nj _
      (elemKGlobal_symm kfun rot ecc m el (hrel el hel).1 (hrel el hel).2
        (hsym (stiffParamsOf el))) r c)

/-- Witness for C2: a concrete one-element model with symmetric local
stiffness, checked at the off-diagonal pair (1, 7). -/
theorem c2_assembled_K_symmetric_witness :
    assembledK kfunOne rot0w ecc1w solveNone projQ0w blv0w m2 1 7
      = assembledK kfunOne rot0w ecc1w solveNone projQ0w blv0w m2 7 1 :=
  c2_assembled_K_symmetric kfunOne rot0w ecc1w solveNone projQ0w blv0w m2
    (by
      intro el hel
      have h : el = el2 := by simpa [m2] using hel
      subst h
      exact ⟨fun _ => rfl, fun _ => rfl⟩)
    (fun _ => Matrix.transpose_one) 1 7

/-- C5. Both condensation operations are the identity when no release
flag is set: _condense_matrix returns the stiffness unchanged and
_condense_fef returns the fixed-end-force vector unchanged. -/
theorem c5_condense_identity (k : M12) (f : V12) (ri rj : Fin 6 → Bool)
    (h1 : ∀ i, ri i = false) (h2 : ∀ i, rj i = false) :
    condense_matrix k ri rj = k ∧ condense_fef k f ri rj = f := by
  have hnil := relIdx_eq_nil ri rj h1 h2
  constructor
  · rw [condense_matrix]
    simp only [hnil, List.isEmpty_nil, if_true]
  · rw [condense_fef]
    simp only [hnil, List.isEmpty_nil, if_true]

/-- Witness for C5: concrete matrix and vector with the all-false release
pair. -/
theorem c5_condense_identity_witness :
    condense_matrix kC5 noRel noRel = kC5 ∧ condense_fef kC5 fC5 noRel noRel = fC5 :=
  c5_condense_identity kC5 fC5 noRel noRel (fun _ => rfl) (fun _ => rfl)

/-- Counterexample for C4: at intensity wx = 2 and clear length 3 the
stored axial entry is -3, not the claimed wx*L/2 = 3: the code stores the
negated values -w*L/2. -/
theorem c4_dist_fef_counterexample :
    distFEFlocal (fun i => if (i : ℕ) = 0 then 2 else 0) 3 0
      ≠ (fun i : Fin 3 => if (i : ℕ) = 0 then (2:ℚ) else 0) 0 * 3 / 2 := by
  show -((2:ℚ)) * 3 / 2 ≠ 2 * 3 / 2
  norm_num

/-- C4 (amended). The distributed-load local FEF entries are
-w*L/2 at both ends for the axial/shear components and transverse end
moments -wy*L^2/12 / +wy*L^2/12 (entries 5/11) and +wz*L^2/12 /
-wz*L^2/12 (entries 4/10): magnitudes w*L/2 and w*L^2/12, with opposite
signs within each transverse moment pair, and zero torsion entries. -/
theorem c4_dist_fef_amended (w : Vec3) (L : ℚ) :
    distFEFlocal w L 0 = -(w 0) * L / 2 ∧ distFEFlocal w L 6 = -(w 0) * L / 2
    ∧ distFEFlocal w L 1 = -(w 1) * L / 2 ∧ distFEFlocal w L 7 = -(w 1) * L / 2
    ∧ distFEFlocal w L 2 = -(w 2) * L / 2 ∧ distFEFlocal w L 8 = -(w 2) * L / 2
    ∧ distFEFlocal w L 5 = -(w 1) * L ^ 2 / 12
    ∧ distFEFlocal w L 11 = (w 1) * L ^ 2 / 12
    ∧ distFEFlocal w L 4 = (w 2) * L ^ 2 / 12
    ∧ distFEFlocal w L 10 = -(w 2) * L ^ 2 / 12
    ∧ distFEFlocal w L 5 = -(distFEFlocal w L 11)
    ∧ distFEFlocal w L 4 = -(distFEFlocal w L 10)
    ∧ distFEFlocal w L 3 = 0 ∧ distFEFlocal w L 9 = 0 :=
  ⟨rfl, rfl, rfl, rfl, rfl, rfl, rfl, rfl, rfl, rfl,
   by show -(w 1) * L ^ 2 / 12 = -(w 1 * L ^ 2 / 12); ring,
   by show w 2 * L ^ 2 / 12 = -(-(w 2) * L ^ 2 / 12); ring,
   rfl, rfl⟩

/-- C3. Under a sound linear solver, the exact point-load FEF of
_get_exact_fef_via_stiffness is exactly the claimed assembly: first six
entries k_left[0:6,6:12] u_mid, last six k_right[6:12,0:6] u_mid, where
u_mid solves (k_left[6:12,6:12] + k_right[0:6,0:6]) u_mid = F_mid and
F_mid carries the applied force on its translational components only, for
sub-element stiffnesses taken at lengths a and b = L - a. -/
theorem c3_exact_fef_characterization (kfun : StiffParams → M12)
    (solve : M6 → V6 → Option V6)
    (hsolve : ∀ A b v, solve A b = some v → A.mulVec v = b)
    (mat : Material) (sec : Sect) (L a : ℚ) (P : Vec3) (u : V6)
    (ha : 0 < a) (haL : a < L)
    (hu : solve (midStiffness kfun mat sec L a) (midForce P) = some u) :
    (∀ i : Fin 6, getExactFEF kfun solve mat sec L a P ⟨(i : ℕ), by omega⟩
        = (blkTR (kfun (subParams mat sec a))).mulVec u i)
    ∧ (∀ i : Fin 6, getExactFEF kfun solve mat sec L a P ⟨(i : ℕ) + 6, by omega⟩
        = (blkBL (kfun (subParams mat sec (L - a)))).mulVec u i)
    ∧ (midStiffness kfun mat sec L a).mulVec u = midForce P
    ∧ midForce P 0 = P 0 ∧ midForce P 1 = P 1 ∧ midForce P 2 = P 2
    ∧ midForce P 3 = 0 ∧ midForce P 4 = 0 ∧ midForce P 5 = 0 := by
  have hL : L ≠ 0 := (lt_trans ha haL).ne'
  have hfef : getExactFEF kfun solve mat sec L a P
      = concat66 ((blkTR (kfun (subParams mat sec a))).mulVec u)
                 ((blkBL (kfun (subParams mat sec (L - a)))).mulVec u) := by
    simp only [getExactFEF, if_neg hL, hu]
  refine ⟨?_, ?_, hsolve _ _ _ hu, rfl, rfl, rfl, rfl, rfl, rfl⟩
  · intro i
    rw [hfef]
    simp only [concat66]
    rw [dif_pos i.isLt]
  · intro i
    rw [hfef]
    simp only [concat66]
    rw [dif_neg (by omega)]
    congr 1

/-- Witness for C3: identity sub-element stiffness (mid stiffness 2 I),
the halving solver, midspan of a length-2 member: the solved mid
displacement reproduces the mid force. -/
theorem blkTL_one : blkTL (1 : M12) = 1 := by
  funext a b
  simp [blkTL, Matrix.one_apply, Fin.ext_iff]

theorem blkBR_one : blkBR (1 : M12) = 1 := by
  funext a b
  simp [blkBR, Matrix.one_apply, Fin.ext_iff]

theorem c3_exact_fef_characterization_witness :
    (midStiffness kfunOne matTrivial sectTrivial 2 1).mulVec uW = midForce pW := by
  have hsolve : ∀ A b v, solveHalf A b = some v → A.mulVec v = b := by
    intro A b v hv
    rw [solveHalf] at hv
    by_cases h : A.mulVec (fun i => b i / 2) = b
    · rw [if_pos h] at hv
      have hbv := Option.some.inj hv
      rw [← hbv]
      exact h
    · rw [if_neg h] at hv
      exact absurd hv (by simp)
  have hmid : midStiffness kfunOne matTrivial sectTrivial 2 1 = 1 + 1 := by
    simp only [midStiffness, kfunOne]
    rw [blkTL_one, blkBR_one]
  have hcond : (midStiffness kfunOne matTrivial sectTrivial 2 1).mulVec
      (fun i => midForce pW i / 2) = midForce pW := by
    rw [hmid]
    funext i
    simp only [Matrix.add_mulVec, Matrix.one_mulVec, Pi.add_apply]
    ring
  have hu : solveHalf (midStiffness kfunOne matTrivial sectTrivial 2 1)
      (midForce pW) = some uW := by
    rw [solveHalf, if_pos hcond]
    rfl
  exact (c3_exact_fef_characterization kfunOne solveHalf hsolve matTrivial
    sectTrivial 2 1 pW uW (by norm_num) (by norm_num) hu).2.2.1

/-- The first six entries of the zero 12-vector. -/
theorem first6_zero : first6 (fun _ => 0) = fun _ => 0 := rfl

/-- The last six entries of the zero 12-vector. -/
theorem last6_zero : last6 (fun _ => 0) = fun _ => 0 := rfl

/-- A member load that is not a distributed load and whose local FEF came
out zero contributes nothing to P. -/
theorem loadPIncr_of_zero_fef (kfun : StiffParams → M12)
    (rot : Vec3 → Vec3 → ℚ → M3) (ecc : Vec3 → Vec3 → M12)
    (solve : M6 → V6 → Option V6)
    (projQ : Vec3 → Vec3 → Vec3 → ℚ → String → Vec3) (m : Model)
    (load : Load) (el : Element) (scale : ℚ) (w : Vec3)
    (hscale : lookupScale m.casePatterns load.pattern = some scale)
    (htype : load.type = "member_point")
    (hfind : m.elements.find? (fun e => e.id == load.element_id) = some el)
    (hloc : localFefOf kfun solve projQ (loadR rot m el) m el load scale
      = some (fun _ => 0, w)) :
    ∀ d, loadPIncr kfun rot ecc solve projQ m load d = 0 := by
  intro d
  have hmv : (T_loadOf rot ecc m el)ᵀ.mulVec (fun _ => (0:ℚ)) = fun _ => 0 := by
    funext a
    simp [Matrix.mulVec, Matrix.dotProduct]
  have hnd : ¬ (load.type = "member_dist" ∧ (0 < el.end_off_i ∨ 0 < el.end_off_j)) := by
    intro hc
    rw [htype] at hc
    exact absurd hc.1 (by decide)
  simp only [loadPIncr, fefGlobalOfLoad, hscale, if_pos (Or.inr htype), hfind, hloc]
  cases hAR : anyReleases el with
  | false =>
    simp only [Bool.false_eq_true, if_false, hmv, if_neg hnd]
    rw [first6_zero, last6_zero, placeV_zero, placeV_zero]
    ring
  | true =>
    simp only [if_true, condense_fef_zero, hmv, if_neg hnd]
    rw [first6_zero, last6_zero, placeV_zero, placeV_zero]
    ring

/-- C10. A point load whose two-segment mid-stiffness system is singular
(the solver fails on every right-hand side for that system), or whose
member clear length is zero, gets the zero FEF 12-vector from
_get_exact_fef_via_stiffness and contributes nothing to the load vector
P; no exception escapes (every path is total). -/
theorem c10_singular_point_load (kfun : StiffParams → M12)
    (rot : Vec3 → Vec3 → ℚ → M3) (ecc : Vec3 → Vec3 → M12)
    (solve : M6 → V6 → Option V6)
    (projQ : Vec3 → Vec3 → Vec3 → ℚ → String → Vec3) (m : Model)
    (load : Load) (el : Element) (scale : ℚ)
    (htype : load.type = "member_point")
    (hscale : lookupScale m.casePatterns load.pattern = some scale)
    (hfind : m.elements.find? (fun e => e.id == load.element_id) = some el)
    (hsing : el.L_clear = 0 ∨
      ∀ b, solve (midStiffness kfun el.material el.sect el.L_clear
              (pointDistRaw el load - el.end_off_i)) b = none) :
    (∀ P, getExactFEF kfun solve el.material el.sect el.L_clear
        (pointDistRaw el load - el.end_off_i) P = fun _ => 0)
    ∧ ∀ d, loadPIncr kfun rot ecc solve projQ m load d = 0 := by
  have hzero : ∀ P, getExactFEF kfun solve el.material el.sect el.L_clear
      (pointDistRaw el load - el.end_off_i) P = fun _ => 0 := by
    intro P
    rcases hsing with hL | hs
    · simp only [getExactFEF, if_pos hL]
    · simp only [getExactFEF, hs (midForce P)]
      split <;> rfl
  refine ⟨hzero, ?_⟩
  have hne : ¬ (load.type = "member_dist") := by
    rw [htype]; decide
  have hloc : ∃ w, localFefOf kfun solve projQ (loadR rot m el) m el load scale
      = some (fun _ => 0, w) ∨
      localFefOf kfun solve projQ (loadR rot m el) m el load scale = none := by
    refine ⟨fun _ => 0, ?_⟩
    cases hp : parseLoadDirection load.dir with
    | none =>
      right
      simp only [localFefOf, if_neg hne, hp]
    | some ds =>
      left
      simp only [localFefOf, if_neg hne, hp]
      split
      · rw [hzero]
      · rfl
  rcases hloc with ⟨w, hw | hw⟩
  · exact loadPIncr_of_zero_fef kfun rot ecc solve projQ m load el scale w
      hscale htype hfind hw
  · intro d
    simp only [loadPIncr, fefGlobalOfLoad, hscale, if_pos (Or.inr htype), hfind, hw]

/-- Witness for C10: concrete model m10 with the midspan point load on
element 5 under an always-failing solver; the load leaves P untouched at
DOF 3 and the FEF of the zero vector is zero at entry 0. -/
theorem c10_singular_point_load_witness :
    loadPIncr kfunOne rot0w ecc1w solveNone projQ0w m10 load10 3 = 0 :=
  (c10_singular_point_load kfunOne rot0w ecc1w solveNone projQ0w m10 load10
    el10 1 rfl rfl rfl (Or.inr fun _ => rfl)).2 3

/-- C6. Pattern-derived mass conversion: after net-force accumulation a
node whose net Z force is more negative than -1e-5 receives exactly
abs(Fz)/g on each of its three translational diagonal entries; any other
node (including one with a large net upward force) receives nothing from
this path, rotational diagonal entries are never touched, and the added
mass is never negative. -/
theorem c6_net_mass_rule (rot : Vec3 → Vec3 → ℚ → M3) (m : Model)
    (pats : List (String × ℚ)) (M1 : GMat) (n : ℕ)
    (hn : n < m.numNodes) (hpats : pats ≠ []) :
    (accumNetForce rot m pats (6 * n + 2) < massThreshold →
      ∀ t, t < 3 → addNetLoadMass rot m pats M1 (6 * n + t) (6 * n + t)
        = M1 (6 * n + t) (6 * n + t)
          + |accumNetForce rot m pats (6 * n + 2)| / gAccel)
    ∧ (massThreshold ≤ accumNetForce rot m pats (6 * n + 2) →
      ∀ t, t < 6 → addNetLoadMass rot m pats M1 (6 * n + t) (6 * n + t)
        = M1 (6 * n + t) (6 * n + t))
    ∧ (∀ t, 3 ≤ t → t < 6 → addNetLoadMass rot m pats M1 (6 * n + t) (6 * n + t)
        = M1 (6 * n + t) (6 * n + t))
    ∧ (∀ r c, M1 r c ≤ addNetLoadMass rot m pats M1 r c) := by
  have hne : pats.isEmpty = false := by
    cases pats with
    | nil => exact absurd rfl hpats
    | cons a t => rfl
  have hA : ∀ r c, addNetLoadMass rot m pats M1 r c
      = M1 r c + (if r = c then netMassDiag m (accumNetForce rot m pats) r else 0) := by
    intro r c
    simp only [addNetLoadMass, hne, Bool.false_eq_true, if_false]
  refine ⟨?_, ?_, ?_, ?_⟩
  · intro hF t ht
    have h6 : (6 * n + t) / 6 = n := by omega
    have h7 : (6 * n + t) % 6 = t := by omega
    rw [hA, if_pos rfl, netMassDiag, h6, h7, if_pos ⟨hn, ht, hF⟩]
  · intro hF t ht
    have h6 : (6 * n + t) / 6 = n := by omega
    rw [hA, if_pos rfl, netMassDiag, h6]
    rw [if_neg (fun hc => absurd hc.2.2 (not_lt.2 hF))]
    ring
  · intro t ht3 ht6
    have h7 : (6 * n + t) % 6 = t := by omega
    rw [hA, if_pos rfl, netMassDiag, h7]
    rw [if_neg (fun hc => absurd hc.2.1 (by omega))]
    ring
  · intro r c
    rw [hA]
    refine le_add_of_nonneg_right ?_
    split
    · rw [netMassDiag]
      split
      · exact div_nonneg (abs_nonneg _) (by norm_num [gAccel])
      · exact le_refl 0
    · exact le_refl 0

/-- Witness for C6: the one-node model m6 whose single nodal load has net
Z force -1 under pattern W; the node gets abs(-1)/g on diagonal entry
0. -/
theorem c6_net_mass_rule_witness :
    addNetLoadMass rot0w m6 pats6 zeroGM 0 0
      = zeroGM 0 0 + |accumNetForce rot0w m6 pats6 2| / gAccel := by
  have hv : accumNetForce rot0w m6 pats6 2 = -1 := by
    simp [accumNetForce, m6, massLoadIncr, lookupScale, pats6, loadW]
  have hF : accumNetForce rot0w m6 pats6 (6 * 0 + 2) < massThreshold := by
    show accumNetForce rot0w m6 pats6 2 < massThreshold
    rw [hv, massThreshold]
    norm_num
  exact (c6_net_mass_rule rot0w m6 pats6 zeroGM 0 (by norm_num [m6])
    (by simp [pats6])).1 hF 0 (by norm_num)

/-- C7 (amended). Self mass: each element contributes A*(rho/g)*L_total
split evenly between its two end nodes, placed only on translational
diagonal entries; the total over all translational diagonal entries is
3 times the summed element masses (each node mass appears once per
translational direction), not 1 times. -/
theorem c7_self_mass (m : Model) :
    (∀ r c, r ≠ c → addSelfMass m zeroGM r c = 0)
    ∧ (∀ d, 3 ≤ d % 6 → addSelfMass m zeroGM d d = 0)
    ∧ (∀ d, d % 6 < 3 → addSelfMass m zeroGM d d
        = (m.elements.map (fun el =>
            (if d / 6 = el.ni then selfMassHalf el else 0)
            + (if d / 6 = el.nj then selfMassHalf el else 0))).sum)
    ∧ ((∀ el ∈ m.elements, el.ni < m.numNodes ∧ el.nj < m.numNodes) →
      (Finset.range m.numNodes).sum (fun n => (Finset.range 3).sum (fun t =>
        addSelfMass m zeroGM (6 * n + t) (6 * n + t)))
      = 3 * (m.elements.map
          (fun el => el.sect.A * (el.material.rho / gAccel) * el.L_total)).sum) := by
  have hA : ∀ r c, addSelfMass m zeroGM r c
      = ((m.elements.map (fun el => selfMassIncr el r c)).sum) := by
    intro r c
    have h2 : addSelfMass m zeroGM = fun r c =>
        zeroGM r c + ((m.elements.map (fun el => selfMassIncr el r c)).sum) := by
      unfold addSelfMass
      exact foldl_add2 _ _ _
    rw [h2]
    simp [zeroGM]
  refine ⟨?_, ?_, ?_, ?_⟩
  · intro r c hrc
    rw [hA]
    exact sum_map_zero _ _ (fun el _ => by
      rw [selfMassIncr, if_neg (fun hc => hrc hc.1)])
  · intro d hd
    rw [hA]
    exact sum_map_zero _ _ (fun el _ => by
      rw [selfMassIncr, if_neg (fun hc => absurd hc.2 (by omega))])
  · intro d hd
    rw [hA]
    exact sum_map_congr _ _ _ (fun el _ => by
      rw [selfMassIncr, if_pos ⟨rfl, hd⟩])
  · intro hN
    have hentry : ∀ n t, t < 3 → addSelfMass m zeroGM (6 * n + t) (6 * n + t)
        = (m.elements.map (fun el =>
            (if n = el.ni then selfMassHalf el else 0)
            + (if n = el.nj then selfMassHalf el else 0))).sum := by
      intro n t ht
      rw [hA]
      refine sum_map_congr _ _ _ (fun el _ => ?_)
      rw [selfMassIncr, if_pos ⟨rfl, by omega⟩]
      have h6 : (6 * n + t) / 6 = n := by omega
      rw [h6]
    calc (Finset.range m.numNodes).sum (fun n => (Finset.range 3).sum (fun t =>
          addSelfMass m zeroGM (6 * n + t) (6 * n + t)))
        = (Finset.range m.numNodes).sum (fun n => (Finset.range 3).sum (fun _ =>
            (m.elements.map (fun el =>
              (if n = el.ni then selfMassHalf el else 0)
              + (if n = el.nj then selfMassHalf el else 0))).sum)) := by
          refine Finset.sum_congr rfl (fun n _ => Finset.sum_congr rfl (fun t htm => ?_))
          exact hentry n t (Finset.mem_range.mp htm)
      _ = (Finset.range m.numNodes).sum (fun n => 3 * (m.elements.map (fun el =>
            (if n = el.ni then selfMassHalf el else 0)
            + (if n = el.nj then selfMassHalf el else 0))).sum) := by
          refine Finset.sum_congr rfl (fun n _ => ?_)
          rw [Finset.sum_const, Finset.card_range, nsmul_eq_mul]
          norm_num
      _ = 3 * (Finset.range m.numNodes).sum (fun n => (m.elements.map (fun el =>
            (if n = el.ni then selfMassHalf el else 0)
            + (if n = el.nj then selfMassHalf el else 0))).sum) := by
          rw [Finset.mul_sum]
      _ = 3 * (m.elements.map (fun el => (Finset.range m.numNodes).sum (fun n =>
            (if n = el.ni then selfMassHalf el else 0)
            + (if n = el.nj then selfMassHalf el else 0)))).sum := by
          rw [finsetSum_listSum_swap]
      _ = 3 * (m.elements.map
            (fun el => el.sect.A * (el.material.rho / gAccel) * el.L_total)).sum := by
          congr 1
          refine sum_map_congr _ _ _ (fun el hel => ?_)
          rw [Finset.sum_add_distrib,
            Finset.sum_ite_eq' (Finset.range m.numNodes) el.ni (fun _ => selfMassHalf el),
            Finset.sum_ite_eq' (Finset.range m.numNodes) el.nj (fun _ => selfMassHalf el),
            if_pos (Finset.mem_range.mpr (hN el hel).1),
            if_pos (Finset.mem_range.mpr (hN el hel).2), selfMassHalf]
          ring

/-- Counterexample for C7: in model m7 (one element of mass 2 between two
nodes) the sum of all translational diagonal self-mass entries is 6, not
the claimed summed element mass 2. -/
theorem c7_self_mass_counterexample :
    (Finset.range m7.numNodes).sum (fun n => (Finset.range 3).sum (fun t =>
      addSelfMass m7 zeroGM (6 * n + t) (6 * n + t)))
    ≠ (m7.elements.map
        (fun el => el.sect.A * (el.material.rho / gAccel) * el.L_total)).sum := by
  simp [Finset.sum_range_succ, addSelfMass, zeroGM, selfMassIncr, selfMassHalf,
    m7, el7, gAccel, sectTrivial]
  norm_num

/-- Witness for C7: the conservation identity with factor 3 evaluated on
m7: both sides equal 6. -/
theorem c7_self_mass_witness :
    (Finset.range m7.numNodes).sum (fun n => (Finset.range 3).sum (fun t =>
      addSelfMass m7 zeroGM (6 * n + t) (6 * n + t)))
    = 3 * (m7.elements.map
        (fun el => el.sect.A * (el.material.rho / gAccel) * el.L_total)).sum :=
  (c7_self_mass m7).2.2.2 (by
    intro el hel
    have h : el = el7 := by simpa [m7] using hel
    subst h
    exact ⟨by decide, by decide⟩)

/-- C9 (amended). Each build adds a state-independent increment that is a
pure function of the snapshot: build_mass_matrix and assemble_system
return their incoming accumulator plus the result of a fresh (zero)
build. Fresh-assembler rebuilds are therefore reproducible and
independent, but a second call through the same object returns the
accumulated sum, not the single-build result. -/
theorem c9_build_adds_pure_increment (rot : Vec3 → Vec3 → ℚ → M3) (m : Model)
    (name : String) (M0 : GMat) (kfun : StiffParams → M12)
    (rot2 : Vec3 → Vec3 → ℚ → M3) (ecc : Vec3 → Vec3 → M12)
    (solve : M6 → V6 → Option V6)
    (projQ : Vec3 → Vec3 → Vec3 → ℚ → String → Vec3) (blv : GVec)
    (st : GMat × GVec) :
    (buildMassMatrix rot m name M0
      = fun r c => M0 r c + buildMassMatrix rot m name zeroGM r c)
    ∧ ((assembleSystem kfun rot2 ecc solve projQ blv m st).1
      = fun r c => st.1 r c
          + (assembleSystem kfun rot2 ecc solve projQ blv m (zeroGM, zeroGV)).1 r c)
    ∧ ((assembleSystem kfun rot2 ecc solve projQ blv m st).2
      = fun d => st.2 d
          + (assembleSystem kfun rot2 ecc solve projQ blv m (zeroGM, zeroGV)).2 d) := by
  have hselfS : ∀ M1 : GMat, addSelfMass m M1 = fun r c =>
      M1 r c + ((m.elements.map (fun el => selfMassIncr el r c)).sum) := by
    intro M1
    unfold addSelfMass
    exact foldl_add2 _ _ _
  have hself : ∀ M1 : GMat, addSelfMass m M1
      = fun r c => M1 r c + addSelfMass m zeroGM r c := by
    intro M1
    rw [hselfS M1, hselfS zeroGM]
    funext r c
    simp [zeroGM]
  have hnet : ∀ (pats : List (String × ℚ)) (M1 : GMat), addNetLoadMass rot m pats M1
      = fun r c => M1 r c + addNetLoadMass rot m pats zeroGM r c := by
    intro pats M1
    cases he : pats.isEmpty with
    | true =>
      simp only [addNetLoadMass, he, if_true]
      funext r c
      simp [zeroGM]
    | false =>
      simp only [addNetLoadMass, he, Bool.false_eq_true, if_false]
      funext r c
      simp [zeroGM]
  refine ⟨?_, ?_, ?_⟩
  · cases hms : findMassSource m name with
    | none =>
      simp only [buildMassMatrix, hms]
      funext r c
      simp [zeroGM]
    | some ms =>
      simp only [buildMassMatrix, hms]
      cases hsm : ms.include_self_mass with
      | true =>
        cases hip : ms.include_patterns with
        | true =>
          simp only [if_true]
          rw [hnet ms.load_patterns (addSelfMass m M0),
            hnet ms.load_patterns (addSelfMass m zeroGM), hself M0]
          funext r c
          simp [zeroGM]
          ring
        | false =>
          simp only [Bool.false_eq_true, if_false, if_true]
          exact hself M0
      | false =>
        simp only [Bool.false_eq_true, if_false]
        cases hip : ms.include_patterns with
        | true =>
          simp only [if_true]
          exact hnet ms.load_patterns M0
        | false =>
          simp only [Bool.false_eq_true, if_false]
          funext r c
          simp [zeroGM]
  · have hK : ∀ K0 : GMat, buildStiffness kfun rot2 ecc m K0 = fun r c =>
        K0 r c + ((m.elements.map
          (fun el => scatterK el.ni el.nj (elemKGlobal kfun rot2 ecc m el) r c)).sum) := by
      intro K0
      unfold buildStiffness
      exact foldl_add2 _ _ _
    show buildStiffness kfun rot2 ecc m st.1
      = fun r c => st.1 r c + buildStiffness kfun rot2 ecc m zeroGM r c
    rw [hK st.1, hK zeroGM]
    funext r c
    simp [zeroGM]
  · have hP : ∀ P0 : GVec, addMemberLoads kfun rot2 ecc solve projQ m P0 = fun d =>
        P0 d + ((m.loads.map
          (fun ld => loadPIncr kfun rot2 ecc solve projQ m ld d)).sum) := by
      intro P0
      unfold addMemberLoads
      exact foldl_add1 _ _ _
    show addMemberLoads kfun rot2 ecc solve projQ m (fun d => st.2 d + blv d)
      = fun d => st.2 d
          + addMemberLoads kfun rot2 ecc solve projQ m (fun d => zeroGV d + blv d) d
    rw [hP (fun d => st.2 d + blv d), hP (fun d => zeroGV d + blv d)]
    funext d
    simp [zeroGV]
    ring

/-- Counterexample for C9: on model m9 a second build_mass_matrix call
through the same assembler object doubles the diagonal entry (2 instead
of 1), so calling it twice does not return the same M as calling it
once. -/
theorem c9_counterexample :
    buildMassMatrix rot0w m9 "Default" (buildMassMatrix rot0w m9 "Default" zeroGM) 0 0
    ≠ buildMassMatrix rot0w m9 "Default" zeroGM 0 0 := by
  have hfind : findMassSource m9 "Default" = some ms9 := rfl
  have hone : ∀ M0 : GMat, buildMassMatrix rot0w m9 "Default" M0 0 0 = M0 0 0 + 1 := by
    intro M0
    simp only [buildMassMatrix, hfind]
    norm_num [ms9, addSelfMass, selfMassIncr, selfMassHalf, m9, el9, gAccel,
      sectTrivial]
  rw [hone, hone]
  norm_num

/-- C1 (code divergence). With the identity eccentricity and a rotation
function that depends on the end-point coordinates (as the real
direction-based rotation does), the member-load transform of
_add_member_loads differs from the stiffness transform of
_build_stiffness on element el1, whose end-i insertion offset is
(0,0,1): the load path feeds the RAW node coordinates to the rotation
while the stiffness path feeds the ADJUSTED ones. -/
theorem c1_rotation_mismatch :
    T_loadOf rot1 ecc1w m1 el1 0 0 ≠ T_stiffOf rot1 ecc1w m1 el1 0 0 := by
  have hl : T_loadOf rot1 ecc1w m1 el1 = blockDiag4 (loadR rot1 m1 el1) := by
    simp only [T_loadOf, ecc1w]
    exact Matrix.one_mul _
  have hs : T_stiffOf rot1 ecc1w m1 el1
      = blockDiag4 (rot1 (adjP1 m1 el1) (adjP2 m1 el1) el1.beta) := by
    simp only [T_stiffOf, ecc1w]
    exact Matrix.one_mul _
  rw [hl, hs]
  simp [blockDiag4, loadR, rot1, adjP1, adjP2, m1, el1]

/-- C8. Projection of distributed loads: a Local frame is a no-op;
in the Global frame a vertical member (horizontal length below 1e-9)
yields exactly the zero intensity, otherwise the intensity is scaled by
horizontal length / total length; and a member with equal-elevation
endpoints whose total length is its 3D end-point distance has projection
factor exactly 1. -/
theorem c8_projection_factor (w p1 p2 : Vec3R) (Lt : ℝ) :
    (applyProjectionFactor w p1 p2 Lt "Local" = w)
    ∧ (horizLen p1 p2 < 1e-9 →
        applyProjectionFactor w p1 p2 Lt "Global" = fun _ => 0)
    ∧ (1e-9 ≤ horizLen p1 p2 → horizLen p1 p2 ≤ Lt →
        applyProjectionFactor w p1 p2 Lt "Global"
          = fun i => w i * (horizLen p1 p2 / Lt))
    ∧ (p1 2 = p2 2 → Lt = dist3 p1 p2 → 1e-9 ≤ horizLen p1 p2 →
        applyProjectionFactor w p1 p2 Lt "Global" = w) := by
  have hGl : ¬ (("Global" : String) ≠ "Global") := by simp
  refine ⟨?_, ?_, ?_, ?_⟩
  · rw [applyProjectionFactor, if_pos (by decide : ("Local" : String) ≠ "Global")]
  · intro hv
    rw [applyProjectionFactor, if_neg hGl]
    show (if horizLen p1 p2 < 1e-9 then (fun _ => (0:ℝ))
      else if Lt < 1e-9 then w
      else fun i => w i * (horizLen p1 p2 / Lt)) = fun _ => 0
    rw [if_pos hv]
  · intro h1 h2
    rw [applyProjectionFactor, if_neg hGl]
    show (if horizLen p1 p2 < 1e-9 then (fun _ => (0:ℝ))
      else if Lt < 1e-9 then w
      else fun i => w i * (horizLen p1 p2 / Lt))
      = fun i => w i * (horizLen p1 p2 / Lt)
    rw [if_neg (not_lt.mpr h1)]
    have hLt : ¬ (Lt < 1e-9) := by
      rw [not_lt]
      calc (1e-9 : ℝ) ≤ horizLen p1 p2 := h1
        _ ≤ Lt := h2
    rw [if_neg hLt]
  · intro hz hLt h1
    have hdd : dist3 p1 p2 = horizLen p1 p2 := by
      rw [dist3, horizLen, show p2 2 - p1 2 = 0 by rw [hz]; ring]
      norm_num
    have hne : horizLen p1 p2 ≠ 0 := by
      have : (0:ℝ) < 1e-9 := by norm_num
      linarith
    have h2 : horizLen p1 p2 ≤ Lt := by rw [hLt, hdd]
    have h3 : applyProjectionFactor w p1 p2 Lt "Global"
        = fun i => w i * (horizLen p1 p2 / Lt) := by
      rw [applyProjectionFactor, if_neg hGl]
      show (if horizLen p1 p2 < 1e-9 then (fun _ => (0:ℝ))
        else if Lt < 1e-9 then w
        else fun i => w i * (horizLen p1 p2 / Lt))
        = fun i => w i * (horizLen p1 p2 / Lt)
      rw [if_neg (not_lt.mpr h1)]
      have hLt2 : ¬ (Lt < 1e-9) := by
        rw [not_lt]
        calc (1e-9 : ℝ) ≤ horizLen p1 p2 := h1
          _ ≤ Lt := h2
      rw [if_neg hLt2]
    rw [h3, hLt, hdd]
    funext i
    rw [div_self hne, mul_one]

/-- Witness for C8: end points (0,0,0) and (3,4,0), total length 5: the
horizontal length is 5, the factor is exactly 1 and the projected Global
intensity is returned unchanged. -/
theorem c8_projection_factor_witness :
    applyProjectionFactor projW projP1 projP2 5 "Global" = projW := by
  have hsq : Real.sqrt ((projP2 0 - projP1 0) ^ 2 + (projP2 1 - projP1 1) ^ 2) = 5 := by
    have : ((projP2 0 - projP1 0) ^ 2 + (projP2 1 - projP1 1) ^ 2 : ℝ) = 5 ^ 2 := by
      simp [projP1, projP2]
      norm_num
    rw [this, Real.sqrt_sq (by norm_num : (0:ℝ) ≤ 5)]
  have hhl : horizLen projP1 projP2 = 5 := by
    rw [horizLen, hsq]
  have hd3 : dist3 projP1 projP2 = 5 := by
    rw [dist3]
    have : ((projP2 0 - projP1 0) ^ 2 + (projP2 1 - projP1 1) ^ 2
        + (projP2 2 - projP1 2) ^ 2 : ℝ) = 5 ^ 2 := by
      simp [projP1, projP2]
      norm_num
    rw [this, Real.sqrt_sq (by norm_num : (0:ℝ) ≤ 5)]
  exact (c8_projection_factor projW projP1 projP2 5).2.2.2
    (by simp [projP1, projP2]) (by rw [hd3]) (by rw [hhl]; norm_num)
